import Mathlib

/-!
Verification model of `git_tool.py`: a commit-mining tool that shells out to
git, assembles `Commit` records (id, author, timestamp, message, changed
files) through a parallel fan-out over a worker pool, caches the store in a
binary artifact, and answers aggregate queries (weekly commit means per
author).  External process invocations and `dateutil` parsing are modelled by
an explicit environment (`GitEnv`); exceptions are modelled by `Except`.
-/

/-- Whitespace test modelling Python `str.strip()` default character class
(restricted to the ASCII whitespace that can appear in decoded output). -/
def isWS (c : Char) : Bool := c == ' ' || c == '\t' || c == '\n' || c == '\r'

/-- Python `s.strip()` on a character list: drop whitespace from both ends. -/
def stripChars (cs : List Char) : List Char :=
  ((cs.dropWhile isWS).reverse.dropWhile isWS).reverse

/-- Python `s.strip()` on strings. -/
def pyStrip (s : String) : String := String.mk (stripChars s.data)

/-- The source's `chomp_quotes = lambda line: line.strip('"')`: drop every
leading and trailing double-quote character. -/
def chompQuotes (s : String) : String :=
  String.mk (((s.data.dropWhile (· == '"')).reverse.dropWhile (· == '"')).reverse)

/-- Python `s.split("\n")` on a character list: split at newline characters;
the result always has at least one (possibly empty) segment, in particular
`"".split("\n") == [""]`. -/
def splitNl : List Char → List (List Char)
  | [] => [[]]
  | c :: cs =>
    match splitNl cs with
    | [] => [[]]
    | l :: ls => if c = '\n' then [] :: l :: ls else (c :: l) :: ls

/-- The line sequence `run_cmd` works on: `stdout.decode().strip().split("\n")`. -/
def splitLines (s : String) : List String :=
  (splitNl (stripChars s.data)).map String.mk

/-- Python `"\n".join(...)`. -/
def joinNl (ls : List String) : String := String.intercalate "\n" ls

/-- Calendar date (year, month, day), modelling Python `datetime.date`. -/
structure Date where
  year : Nat
  month : Nat
  day : Nat
deriving DecidableEq

/-- Timestamp modelling the `datetime.datetime` stored in `Commit.created`:
date, time of day and timezone offset.  Only the date part is consumed by the
queries, but all fields are carried (and serialized). -/
structure DateTime where
  year : Nat
  month : Nat
  day : Nat
  hour : Nat
  minute : Nat
  second : Nat
  tzMinutes : Int
deriving DecidableEq

instance : Inhabited DateTime := ⟨⟨1, 1, 1, 0, 0, 0, 0⟩⟩

/-- Python `date` strict comparison: lexicographic on (year, month, day). -/
def dateLt (a b : Date) : Bool :=
  decide (a.year < b.year) ||
    (decide (a.year = b.year) &&
      (decide (a.month < b.month) ||
        (decide (a.month = b.month) && decide (a.day < b.day))))

/-- Python `date` non-strict comparison. -/
def dateLe (a b : Date) : Bool := decide (a = b) || dateLt a b

/-- Gregorian leap-year test, as in Python's `datetime` module. -/
def isLeap (y : Nat) : Bool := y % 4 == 0 && (y % 100 != 0 || y % 400 == 0)

/-- Days in the months strictly before month `m` of year `y`. -/
def daysBeforeMonth (y m : Nat) : Nat :=
  [0, 31, 59, 90, 120, 151, 181, 212, 243, 273, 304, 334].getD (m - 1) 0
    + (if 2 < m then (if isLeap y then 1 else 0) else 0)

/-- Proleptic Gregorian ordinal of a date, as Python `date.toordinal()`
(0001-01-01 is ordinal 1). -/
def toOrdinal (d : Date) : Nat :=
  (d.year - 1) * 365 + (d.year - 1) / 4 - (d.year - 1) / 100 + (d.year - 1) / 400
    + daysBeforeMonth d.year d.month + d.day

/-- Ordinal of the Monday starting ISO week 1 of `y`
(CPython's `datetime._isoweek1monday`). -/
def isoWeek1Monday (y : Nat) : Int :=
  let firstday : Int := toOrdinal ⟨y, 1, 1⟩
  let firstweekday := (firstday + 6).emod 7
  let w1m := firstday - firstweekday
  if 3 < firstweekday then w1m + 7 else w1m

/-- ISO week number of a date, as `date.isocalendar()[1]` (CPython algorithm);
the source's `get_week_number`. -/
def isoWeekNum (d : Date) : Int :=
  let today : Int := toOrdinal d
  let week := (today - isoWeek1Monday d.year).ediv 7
  if week < 0 then (today - isoWeek1Monday (d.year - 1)).ediv 7 + 1
  else if 52 ≤ week ∧ isoWeek1Monday (d.year + 1) ≤ today then 1
  else week + 1

/-- The `Commit` dataclass, with the dataclass defaults (`None` for `created`,
`author`, `message`; the empty list for `files`). -/
structure Commit where
  cid : String
  created : Option DateTime := none
  author : Option String := none
  message : Option String := none
  files : List String := []
deriving DecidableEq

/-- Outcome of one external process invocation: exit status and captured
standard output (`none` when the bytes cannot be decoded as text). -/
structure ProcOut where
  exitCode : Int
  stdout : Option String
deriving DecidableEq

/-- Exceptions that can escape `run_cmd` and its preprocessing chain:
`stdout.decode()` failing (`UnicodeDecodeError`) or `dateutil.parser.parse`
failing on a date line.  There is no constructor for a non-zero exit status:
`run_cmd` never consults it. -/
inductive RunError where
  | decodeError
  | parseError
deriving DecidableEq

/-- Core of `run_cmd`: decode stdout, `strip()` it and split it into lines.
The exit status of the process is never inspected. -/
def runCmdLines (p : ProcOut) : Except RunError (List String) :=
  match p.stdout with
  | none => .error .decodeError
  | some s => .ok (splitLines s)

/-- Environment of one build: for each git command the process outcome, plus
the behaviour of `dateutil.parser.parse` (`none` models a parse exception). -/
structure GitEnv where
  idsProc : ProcOut
  filesProc : String → ProcOut
  authorProc : String → ProcOut
  dateProc : String → ProcOut
  msgProc : String → ProcOut
  parse : String → Option DateTime

/-- Python's `first = lambda obj: obj[0] if isinstance(obj, list) and len(obj) > 0 else obj`,
totalized with a default; every list it is applied to in the source comes from
`split("\n")` and is therefore non-empty. -/
def pyFirst [Inhabited α] (l : List α) : α := l.headD default

/-- One changed-files task: `run_cmd(CMD_GET_COMMIT_FILES(c))`, no preprocessing. -/
def filesPhaseOne (env : GitEnv) (cid : String) : Except RunError (List String) :=
  runCmdLines (env.filesProc cid)

/-- One author task: `run_cmd(CMD_GET_COMMIT_AUTHOR(c), preprocess_line=chomp_quotes,
preprocess_whole=first)`. -/
def authorPhaseOne (env : GitEnv) (cid : String) : Except RunError String :=
  match runCmdLines (env.authorProc cid) with
  | .error e => .error e
  | .ok lines => .ok (pyFirst (lines.map chompQuotes))

/-- One timestamp task: `preprocess_line=[chomp_quotes, parse]` then
`preprocess_whole=first`; a parse failure on any line aborts the task. -/
def datePhaseOne (env : GitEnv) (cid : String) : Except RunError DateTime :=
  match runCmdLines (env.dateProc cid) with
  | .error e => .error e
  | .ok lines =>
    match (lines.map chompQuotes).mapM env.parse with
    | none => .error .parseError
    | some ds => .ok (pyFirst ds)

/-- One message task: `run_cmd(CMD_GET_COMMIT_MESSAGE(c), preprocess_line=chomp_quotes)`;
the caller joins the returned lines. -/
def msgPhaseOne (env : GitEnv) (cid : String) : Except RunError (List String) :=
  match runCmdLines (env.msgProc cid) with
  | .error e => .error e
  | .ok lines => .ok (lines.map chompQuotes)

/-- Error-propagating map modelling `pool.map` of a fallible task over the
commit list: results are collected in submission order and any task failure
aborts the whole phase. -/
def mapE (f : α → Except ε β) : List α → Except ε (List β)
  | [] => .ok []
  | a :: as =>
    match f a, mapE f as with
    | .error e, _ => .error e
    | .ok _, .error e => .error e
    | .ok b, .ok bs => .ok (b :: bs)

/-- Field assignment `commit.files = files`. -/
def setFiles (fl : List String) (c : Commit) : Commit := { c with files := fl }

/-- Field assignment `commit.author = author`. -/
def setAuthor (a : String) (c : Commit) : Commit := { c with author := some a }

/-- Field assignment `commit.created = _date`. -/
def setCreated (d : DateTime) (c : Commit) : Commit := { c with created := some d }

/-- Field assignment `commit.message = "\n".join(message).strip()`. -/
def setMessage (lines : List String) (c : Commit) : Commit :=
  { c with message := some (pyStrip (joinNl lines)) }

/-- One fan-out phase of `get_or_create_commits`: run the per-commit task over
all commits (`pool.map`, results in submission order), then write result `i`
onto commit `i` (`for value, commit in zip(result, commits)`). -/
def runPhase (f : String → Except RunError β) (set : β → Commit → Commit)
    (commits : List Commit) : Except RunError (List Commit) :=
  match mapE (fun c => f c.cid) commits with
  | .error e => .error e
  | .ok res => .ok (List.zipWith set res commits)

/-- The cache-miss body of `get_or_create_commits`: enumerate commit ids
(`preprocess_line=chomp_quotes`), create one bare `Commit` per id line, then
run the four fan-out phases in source order (files, author, date, message). -/
def buildCommits (env : GitEnv) : Except RunError (List Commit) :=
  match runCmdLines env.idsProc with
  | .error e => .error e
  | .ok idLines =>
    let commits0 := (idLines.map chompQuotes).map (fun i => ({ cid := i } : Commit))
    match runPhase (filesPhaseOne env) setFiles commits0 with
    | .error e => .error e
    | .ok commits1 =>
      match runPhase (authorPhaseOne env) setAuthor commits1 with
      | .error e => .error e
      | .ok commits2 =>
        match runPhase (datePhaseOne env) setCreated commits2 with
        | .error e => .error e
        | .ok commits3 => runPhase (msgPhaseOne env) setMessage commits3

/-- First-seen-order deduplication, modelling iteration over the distinct keys
of a Python `defaultdict` (insertion order) or `set` (order immaterial to every
use, which only tests membership or aggregates order-independently). -/
def fsDedup [DecidableEq κ] : List κ → List κ
  | [] => []
  | x :: xs => x :: (fsDedup xs).filter (fun y => decide (y ≠ x))

/-- Python `sub in s` substring containment. -/
def containsSub (s sub : String) : Bool :=
  (List.range (s.data.length + 1)).any
    (fun i => ((s.data.drop i).take sub.data.length) == sub.data)

/-- Date part of a commit timestamp, `c.created.date()`; defaults to 0001-01-01
for an unset timestamp (the query layer is only ever applied to built stores,
where `created` is populated). -/
def cdate (c : Commit) : Date :=
  match c.created with
  | some dt => ⟨dt.year, dt.month, dt.day⟩
  | none => ⟨1, 1, 1⟩

/-- The source's `whole_year(year)` predicate:
`date(year, 1, 1) <= c.created.date() < date(year + 1, 1, 1)`. -/
def whole_year (year : Nat) (c : Commit) : Bool :=
  dateLe ⟨year, 1, 1⟩ (cdate c) && dateLt (cdate c) ⟨year + 1, 1, 1⟩

/-- The source's `only_authors(authors)` predicate:
`any(author == c.author for author in authors)`. -/
def only_authors (authors : List String) (c : Commit) : Bool :=
  authors.any (fun a => c.author == some a)

/-- The source's `iterate_over(commits, *args)`: apply each callable argument
as a filter, in sequence. -/
def iterate_over (commits : List Commit) (fns : List (Commit → Bool)) : List Commit :=
  fns.foldl (fun cs f => cs.filter f) commits

/-- The source's `get_authors(commits, substring)`: the distinct author strings
of the store that contain `substring`. -/
def get_authors (commits : List Commit) (substring : String) : List String :=
  (fsDedup (commits.filterMap (fun c => c.author))).filter
    (fun a => containsSub a substring)

/-- The source's `group_by(commits, fn=...)`, a `defaultdict(list)`: keys in
first-seen order, each mapped to the commits sharing that key in store order. -/
def group_by_fn [DecidableEq κ] (key : Commit → κ) (commits : List Commit) :
    List (κ × List Commit) :=
  (fsDedup (commits.map key)).map
    (fun k => (k, commits.filter (fun c => decide (key c = k))))

/-- One `Counter.update({k: n})` step: add to an existing key, or append a new
key at the end. -/
def counterAdd [DecidableEq κ] (cnt : List (κ × Nat)) (k : κ) (n : Nat) :
    List (κ × Nat) :=
  if cnt.any (fun p => decide (p.1 = k)) then
    cnt.map (fun p => if p.1 = k then (p.1, p.2 + n) else p)
  else cnt ++ [(k, n)]

/-- The source's `do_count(grouped, fn)`: a `Counter` mapping each transformed
key to the size of its group. -/
def do_count [DecidableEq κ] [DecidableEq μ] (grouped : List (κ × List Commit))
    (fn : κ → μ) : List (μ × Nat) :=
  grouped.foldl (fun cnt p => counterAdd cnt (fn p.1) p.2.length) []

/-- Python `int(...)` applied to an exact rational: truncation toward zero. -/
def pyInt (q : ℚ) : Int := q.num.tdiv (q.den : Int)

/-- Failure of the query layer: `statistics.mean` raises `StatisticsError` on
an empty sequence of data points. -/
inductive QueryError where
  | statisticsError
deriving DecidableEq

/-- The weekly count values whose mean `get_average_count_by_author_in_year`
reports: filter the store by year and by the authors matching `substring`,
group by ISO week number, count per week (`by_week_number.values()`). -/
def weeklyCountValues (commits : List Commit) (substring : String) (year : Nat) :
    List Nat :=
  let authors := get_authors commits substring
  let filtered := iterate_over commits [whole_year year, only_authors authors]
  (do_count (group_by_fn (fun c => isoWeekNum (cdate c)) filtered) id).map
    (fun p => p.2)

/-- The source's `get_average_count_by_author_in_year`: the reported value is
`int(mean(by_week_number.values()))`; when the value sequence is empty,
`statistics.mean` raises `StatisticsError`, which propagates uncaught. -/
def get_average_count_by_author_in_year (commits : List Commit) (substring : String)
    (year : Nat) : Except QueryError Int :=
  let values := weeklyCountValues commits substring year
  if values.isEmpty then .error .statisticsError
  else .ok (pyInt (((values.map (fun n => (n : ℚ))).sum) / (values.length : ℚ)))

/-- Claim-side weekly counts, following the specification's words: restrict to
commits by the matching authors within `[year-01-01, (year+1)-01-01)`, group
by ISO week number and count the commits of each distinct week. -/
def specWeeklyCounts (commits : List Commit) (substring : String) (year : Nat) :
    List Nat :=
  let authors := get_authors commits substring
  let sel := commits.filter
    (fun c => only_authors authors c &&
      (dateLe ⟨year, 1, 1⟩ (cdate c) && dateLt (cdate c) ⟨year + 1, 1, 1⟩))
  (fsDedup (sel.map (fun c => isoWeekNum (cdate c)))).map
    (fun w => (sel.filter (fun c => decide (isoWeekNum (cdate c) = w))).length)

/-- Claim-side weekly mean: the exact arithmetic mean of the weekly counts
(`none` when there are zero groups to average). -/
def weeklyMeanExact (commits : List Commit) (substring : String) (year : Nat) :
    Option ℚ :=
  let counts := specWeeklyCounts commits substring year
  if counts.isEmpty then none
  else some (((counts.map (fun n => (n : ℚ))).sum) / (counts.length : ℚ))

/-- Python `os.path.basename`: the part after the last `/`. -/
def basename (s : String) : String :=
  String.mk ((s.data.reverse.takeWhile (fun c => decide (c ≠ '/'))).reverse)

/-- Python `str.endswith`. -/
def strEndsWith (s p : String) : Bool := decide (p.data <:+ s.data)

/-- The report's `edited_specific_extension(ext)` predicate:
`any(os.path.basename(f).endswith("." + ext) for f in c.files)`. -/
def editedSpecificExtension (ext : String) (c : Commit) : Bool :=
  c.files.any (fun f => strEndsWith (basename f) ("." ++ ext))

/-- Modelled from the spec: the Cache Manager's serialization of the Commit
Store (`pickle.dump` in the source is library code, not part of this
repository); the spec requires a faithful, versionless, whole-structure binary
serialization of the list of Commit records with all five fields.  Strings are
encoded length-prefixed. -/
def encStr (s : String) : List Nat := s.length :: s.data.map Char.toNat

/-- Decode `n` characters, returning the remaining input. -/
def decChars : Nat → List Nat → Option (List Char × List Nat)
  | 0, bs => some ([], bs)
  | _ + 1, [] => none
  | n + 1, b :: bs =>
    match decChars n bs with
    | none => none
    | some (cs, r) => some (Char.ofNat b :: cs, r)

/-- Decode one length-prefixed string. -/
def decStr (bs : List Nat) : Option (String × List Nat) :=
  match bs with
  | [] => none
  | n :: rest =>
    match decChars n rest with
    | none => none
    | some (cs, r) => some (String.mk cs, r)

/-- Encode an integer as sign tag plus magnitude. -/
def encInt : Int → List Nat
  | .ofNat n => [0, n]
  | .negSucc n => [1, n]

/-- Decode an integer. -/
def decInt : List Nat → Option (Int × List Nat)
  | 0 :: n :: r => some (.ofNat n, r)
  | 1 :: n :: r => some (.negSucc n, r)
  | _ => none

/-- Encode a timestamp field by field. -/
def encDT (d : DateTime) : List Nat :=
  d.year :: d.month :: d.day :: d.hour :: d.minute :: d.second :: encInt d.tzMinutes

/-- Decode a timestamp. -/
def decDT (bs : List Nat) : Option (DateTime × List Nat) :=
  match bs with
  | y :: mo :: da :: h :: mi :: s :: r =>
    match decInt r with
    | none => none
    | some (tz, r') => some (⟨y, mo, da, h, mi, s, tz⟩, r')
  | _ => none

/-- Encode an optional value with a presence tag. -/
def encOpt (enc : α → List Nat) : Option α → List Nat
  | none => [0]
  | some a => 1 :: enc a

/-- Decode an optional value. -/
def decOpt (dec : List Nat → Option (α × List Nat)) (bs : List Nat) :
    Option (Option α × List Nat) :=
  match bs with
  | 0 :: r => some (none, r)
  | 1 :: r =>
    match dec r with
    | none => none
    | some (a, r') => some (some a, r')
  | _ => none

/-- Encode a list of strings, length-prefixed. -/
def encStrList (l : List String) : List Nat := l.length :: (l.map encStr).join

/-- Decode `n` values with a given element decoder. -/
def decMany (dec : List Nat → Option (α × List Nat)) :
    Nat → List Nat → Option (List α × List Nat)
  | 0, bs => some ([], bs)
  | n + 1, bs =>
    match dec bs with
    | none => none
    | some (a, r) =>
      match decMany dec n r with
      | none => none
      | some (as, r') => some (a :: as, r')

/-- Decode a length-prefixed list of strings. -/
def decStrList (bs : List Nat) : Option (List String × List Nat) :=
  match bs with
  | [] => none
  | n :: rest => decMany decStr n rest

/-- Encode one Commit record, all five fields in order. -/
def encCommit (c : Commit) : List Nat :=
  encStr c.cid ++ encOpt encDT c.created ++ encOpt encStr c.author ++
    encOpt encStr c.message ++ encStrList c.files

/-- Decode one Commit record. -/
def decCommit (bs : List Nat) : Option (Commit × List Nat) :=
  match decStr bs with
  | none => none
  | some (cid, r1) =>
    match decOpt decDT r1 with
    | none => none
    | some (created, r2) =>
      match decOpt decStr r2 with
      | none => none
      | some (author, r3) =>
        match decOpt decStr r3 with
        | none => none
        | some (message, r4) =>
          match decStrList r4 with
          | none => none
          | some (files, r5) => some (⟨cid, created, author, message, files⟩, r5)

/-- Modelled from the spec: `pickle.dump` of the whole Commit Store to the
binary cache artifact. -/
def serialize (cs : List Commit) : List Nat := cs.length :: (cs.map encCommit).join

/-- Modelled from the spec: `pickle.load` of the cache artifact; `none` models
an artifact that cannot be deserialized (`CacheCorruption`). -/
def deserialize (bs : List Nat) : Option (List Commit) :=
  match bs with
  | [] => none
  | n :: rest =>
    match decMany decCommit n rest with
    | none => none
    | some (cs, _) => some cs

/-- Failures of `get_or_create_commits`: `os.remove` on a missing artifact
(`FileNotFoundError`), `pickle.load` failing on a corrupt artifact, or the
ingestion build itself failing. -/
inductive CacheError where
  | fileNotFound
  | cacheCorruption
  | buildFailure (e : RunError)
deriving DecidableEq

/-- The cache-miss branch: run the full ingestion and persist the store; the
`Bool` component records that ingestion (the external process layer) ran. -/
def buildBranch (env : GitEnv) :
    Except CacheError (List Commit × Option (List Nat) × Bool) :=
  match buildCommits env with
  | .error e => .error (.buildFailure e)
  | .ok commits => .ok (commits, some (serialize commits), true)

/-- The source's `get_or_create_commits(force)` as a function of the cache
artifact state (`fs` is the content of the fixed pickle path, or `none` when
no artifact exists).  Returns the store, the resulting artifact state, and
whether ingestion ran.  With `force`, `os.remove(PICKLE_PATH)` runs first and
raises `FileNotFoundError` when no artifact exists. -/
def get_or_create_commits (env : GitEnv) (force : Bool) (fs : Option (List Nat)) :
    Except CacheError (List Commit × Option (List Nat) × Bool) :=
  match force, fs with
  | true, none => .error .fileNotFound
  | true, some _ => buildBranch env
  | false, none => buildBranch env
  | false, some bytes =>
    match deserialize bytes with
    | none => .error .cacheCorruption
    | some commits => .ok (commits, some bytes, false)

/-- Sequential (submission-order) `pool.map` semantics: a plain ordered map. -/
def poolMap (f : Commit → β) (commits : List Commit) : List β := commits.map f

/-- Indexed scatter of the parallel execution: workers complete in completion
order `order`; each completed task for submission index `i` writes its value
into slot `i`, regardless of when it completes. -/
def schedSlots (f : Commit → β) (commits : List Commit) (order : List Nat) :
    Nat → Option β :=
  order.foldl
    (fun slots i => fun j => if j = i then (commits.get? i).map f else slots j)
    (fun _ => none)

/-- Gather the first `n` slots in submission-index order. -/
def gatherN (slots : Nat → Option β) : Nat → Option (List β)
  | 0 => some []
  | n + 1 =>
    match gatherN slots n, slots n with
    | some l, some b => some (l ++ [b])
    | _, _ => none

/-- Parallel `pool.map` execution model: scatter results by submission index
under an arbitrary completion order, then gather in submission order. -/
def poolMapSched (f : Commit → β) (commits : List Commit) (order : List Nat) :
    Option (List β) :=
  gatherN (schedSlots f commits order) commits.length

/-- A fan-out phase under the parallel execution model: scatter/gather the
task results, then assign result `i` to commit `i`. -/
def phaseSched (f : Commit → β) (set : β → Commit → Commit) (commits : List Commit)
    (order : List Nat) : Option (List Commit) :=
  (poolMapSched f commits order).map (fun res => List.zipWith set res commits)

/-- The same fan-out phase executed sequentially. -/
def phaseSeq (f : Commit → β) (set : β → Commit → Commit) (commits : List Commit) :
    List Commit :=
  List.zipWith set (poolMap f commits) commits

instance {ε α : Type} [DecidableEq ε] [DecidableEq α] : DecidableEq (Except ε α)
  | .error e, .error f => if h : e = f then .isTrue (by rw [h]) else .isFalse (by simp [h])
  | .error _, .ok _ => .isFalse (by simp)
  | .ok _, .error _ => .isFalse (by simp)
  | .ok x, .ok y => if h : x = y then .isTrue (by rw [h]) else .isFalse (by simp [h])

/-- A successful `mapE` has one result per input, in submission order, each the
successful value of the task on the corresponding input. -/
theorem mapE_ok {α β ε : Type} {f : α → Except ε β} :
    ∀ {l : List α} {res : List β}, mapE f l = .ok res →
      res.length = l.length ∧
      ∀ i (hi : i < l.length) (hi' : i < res.length),
        f (l.get ⟨i, hi⟩) = .ok (res.get ⟨i, hi'⟩) := by
  intro l
  induction l with
  | nil =>
    intro res h
    simp only [mapE] at h
    cases h
    exact ⟨rfl, fun i hi => absurd hi (Nat.not_lt_zero i)⟩
  | cons a as ih =>
    intro res h
    cases hfa : f a with
    | error e => simp [mapE, hfa] at h
    | ok b =>
      cases hrec : mapE f as with
      | error e => simp [mapE, hfa, hrec] at h
      | ok bs =>
        simp only [mapE, hfa, hrec] at h
        cases h
        obtain ⟨hlen, hpt⟩ := ih hrec
        refine ⟨by simp [hlen], ?_⟩
        intro i hi hi'
        cases i with
        | zero => simpa using hfa
        | succ j => exact hpt j (Nat.lt_of_succ_lt_succ hi) (Nat.lt_of_succ_lt_succ hi')

/-- A successful fan-out phase keeps the commit count and sets field `i` from
the task value of commit `i`. -/
theorem runPhase_ok {β : Type} {f : String → Except RunError β}
    {set : β → Commit → Commit} {commits commits' : List Commit}
    (h : runPhase f set commits = .ok commits') :
    commits'.length = commits.length ∧
    ∀ i (hi : i < commits.length) (hi' : i < commits'.length),
      ∃ b, f ((commits.get ⟨i, hi⟩).cid) = .ok b ∧
        commits'.get ⟨i, hi'⟩ = set b (commits.get ⟨i, hi⟩) := by
  unfold runPhase at h
  cases hm : mapE (fun c => f c.cid) commits with
  | error e => rw [hm] at h; cases h
  | ok res =>
    rw [hm] at h
    cases h
    obtain ⟨hlen, hpt⟩ := mapE_ok hm
    have hzlen : (List.zipWith set res commits).length = commits.length := by
      simp [List.length_zipWith, hlen]
    refine ⟨hzlen, ?_⟩
    intro i hi hi'
    have hires : i < res.length := by omega
    refine ⟨res.get ⟨i, hires⟩, hpt i hi hires, ?_⟩
    simp [List.get_eq_getElem, List.getElem_zipWith]

/-- Characterization of a successful build: one Commit per enumerated id line,
in enumeration order, whose four attribute fields hold exactly the successful
task values for that commit's id. -/
theorem build_ok_fields {env : GitEnv} {store : List Commit}
    (h : buildCommits env = .ok store) :
    ∃ idLines, runCmdLines env.idsProc = .ok idLines ∧
      store.length = idLines.length ∧
      ∀ i (hi : i < store.length) (hi' : i < idLines.length),
        ∃ fl a d m,
          filesPhaseOne env (chompQuotes (idLines.get ⟨i, hi'⟩)) = .ok fl ∧
          authorPhaseOne env (chompQuotes (idLines.get ⟨i, hi'⟩)) = .ok a ∧
          datePhaseOne env (chompQuotes (idLines.get ⟨i, hi'⟩)) = .ok d ∧
          msgPhaseOne env (chompQuotes (idLines.get ⟨i, hi'⟩)) = .ok m ∧
          store.get ⟨i, hi⟩ =
            { cid := chompQuotes (idLines.get ⟨i, hi'⟩), created := some d,
              author := some a, message := some (pyStrip (joinNl m)), files := fl } := by
  unfold buildCommits at h
  cases hids : runCmdLines env.idsProc with
  | error e => simp [hids] at h
  | ok idLines =>
    simp only [hids] at h
    refine ⟨idLines, rfl, ?_⟩
    cases h1 : runPhase (filesPhaseOne env) setFiles
        ((idLines.map chompQuotes).map (fun i => ({ cid := i } : Commit))) with
    | error e => rw [h1] at h; simp at h
    | ok commits1 =>
      simp only [h1] at h
      cases h2 : runPhase (authorPhaseOne env) setAuthor commits1 with
      | error e => rw [h2] at h; simp at h
      | ok commits2 =>
        simp only [h2] at h
        cases h3 : runPhase (datePhaseOne env) setCreated commits2 with
        | error e => rw [h3] at h; simp at h
        | ok commits3 =>
          simp only [h3] at h
          obtain ⟨len1, pt1⟩ := runPhase_ok h1
          obtain ⟨len2, pt2⟩ := runPhase_ok h2
          obtain ⟨len3, pt3⟩ := runPhase_ok h3
          obtain ⟨len4, pt4⟩ := runPhase_ok h
          have hlen0 : ((idLines.map chompQuotes).map
              (fun i => ({ cid := i } : Commit))).length = idLines.length := by simp
          refine ⟨by omega, ?_⟩
          intro i hi hi'
          obtain ⟨m, hm, hstore⟩ := pt4 i (by omega) hi
          obtain ⟨d, hd, hc3⟩ := pt3 i (by omega) (by omega)
          obtain ⟨a, ha, hc2⟩ := pt2 i (by omega) (by omega)
          obtain ⟨fl, hfl, hc1⟩ := pt1 i (by omega) (by omega)
          have hc0i : ((idLines.map chompQuotes).map
              (fun i => ({ cid := i } : Commit))).get ⟨i, by omega⟩ =
              ({ cid := chompQuotes (idLines.get ⟨i, hi'⟩) } : Commit) := by
            simp [List.get_eq_getElem]
          rw [hc0i] at hc1
          rw [hc1] at hc2
          rw [hc2] at hc3
          rw [hc3] at hstore
          refine ⟨fl, a, d, m, ?_, ?_, ?_, ?_, ?_⟩
          · rw [hc0i] at hfl; exact hfl
          · rw [hc1] at ha; simpa [setFiles] using ha
          · rw [hc2] at hd; simpa [setFiles, setAuthor] using hd
          · rw [hc3] at hm; simpa [setFiles, setAuthor, setCreated] using hm
          · rw [hstore]; simp [setFiles, setAuthor, setCreated, setMessage]

/-- Scatter writes never touch slots of indices that never complete. -/
theorem schedFoldl_notMem {β : Type} (f : Commit → β) (commits : List Commit) :
    ∀ (order : List Nat) (init : Nat → Option β) (j : Nat), j ∉ order →
      order.foldl
        (fun slots i => fun k => if k = i then (commits.get? i).map f else slots k)
        init j = init j := by
  intro order
  induction order with
  | nil => intro init j _; rfl
  | cons i rest ih =>
    intro init j hj
    have hji : j ≠ i := fun h => hj (h ▸ List.mem_cons_self i rest)
    have hjr : j ∉ rest := fun h => hj (List.mem_cons_of_mem _ h)
    simp only [List.foldl_cons]
    rw [ih _ j hjr]
    simp [hji]

/-- A slot whose index completes holds the value of its own submission's task,
no matter where in the completion order it finished. -/
theorem schedFoldl_mem {β : Type} (f : Commit → β) (commits : List Commit) :
    ∀ (order : List Nat) (init : Nat → Option β) (j : Nat), j ∈ order →
      order.foldl
        (fun slots i => fun k => if k = i then (commits.get? i).map f else slots k)
        init j = (commits.get? j).map f := by
  intro order
  induction order with
  | nil => intro init j hj; cases hj
  | cons i rest ih =>
    intro init j hj
    simp only [List.foldl_cons]
    by_cases hjr : j ∈ rest
    · exact ih _ j hjr
    · have hji : j = i := by
        cases List.mem_cons.mp hj with
        | inl h => exact h
        | inr h => exact absurd h hjr
      subst hji
      rw [schedFoldl_notMem f commits rest _ j hjr]
      simp

/-- Gathering `n ≤ length` fully written slots reproduces the sequential map of
the first `n` submissions. -/
theorem gatherN_filled {β : Type} (f : Commit → β) (commits : List Commit)
    (slots : Nat → Option β)
    (hs : ∀ j, j < commits.length → slots j = (commits.get? j).map f) :
    ∀ n, n ≤ commits.length → gatherN slots n = some ((commits.take n).map f) := by
  intro n
  induction n with
  | zero => intro _; simp [gatherN]
  | succ k ih =>
    intro hk
    have hkl : k < commits.length := hk
    have hget : commits.get? k = some (commits.get ⟨k, hkl⟩) := List.get?_eq_get hkl
    simp only [gatherN, ih (Nat.le_of_succ_le hk), hs k hkl, hget, Option.map_some]
    have hgetElem : commits[k]? = some commits[k] := by
      rw [← List.get?_eq_getElem?, hget, List.get_eq_getElem]
    have htake : commits.take (k + 1) = commits.take k ++ [commits[k]] := by
      rw [List.take_succ, hgetElem]
      rfl
    rw [htake, List.map_append]
    simp [List.get_eq_getElem]

/-- Decoding the encoding of a character list returns it with the rest intact. -/
theorem decChars_enc (cs : List Char) :
    ∀ r, decChars cs.length (cs.map Char.toNat ++ r) = some (cs, r) := by
  induction cs with
  | nil => intro r; rfl
  | cons c cs ih =>
    intro r
    simp [decChars, ih, Char.ofNat_toNat]

/-- String round trip. -/
theorem decStr_enc (s : String) (r : List Nat) : decStr (encStr s ++ r) = some (s, r) := by
  obtain ⟨d⟩ := s
  show decStr (d.length :: (d.map Char.toNat ++ r)) = some (⟨d⟩, r)
  simp [decStr, decChars_enc]

/-- Integer round trip. -/
theorem decInt_enc (i : Int) (r : List Nat) : decInt (encInt i ++ r) = some (i, r) := by
  cases i <;> rfl

/-- Timestamp round trip. -/
theorem decDT_enc (d : DateTime) (r : List Nat) : decDT (encDT d ++ r) = some (d, r) := by
  obtain ⟨y, mo, da, h, mi, s, tz⟩ := d
  simp [encDT, decDT, decInt_enc]

/-- Option round trip, given an element round trip. -/
theorem decOpt_enc {α : Type} {enc : α → List Nat} {dec : List Nat → Option (α × List Nat)}
    (hdec : ∀ a r, dec (enc a ++ r) = some (a, r)) (o : Option α) (r : List Nat) :
    decOpt dec (encOpt enc o ++ r) = some (o, r) := by
  cases o with
  | none => rfl
  | some a => simp [encOpt, decOpt, hdec]

/-- Counted-sequence round trip, given an element round trip. -/
theorem decMany_enc {α : Type} {enc : α → List Nat} {dec : List Nat → Option (α × List Nat)}
    (hdec : ∀ a r, dec (enc a ++ r) = some (a, r)) :
    ∀ (l : List α) (r : List Nat),
      decMany dec l.length ((l.map enc).flatten ++ r) = some (l, r) := by
  intro l
  induction l with
  | nil => intro r; rfl
  | cons a as ih =>
    intro r
    simp [decMany, List.append_assoc, hdec, ih]

/-- String-list round trip. -/
theorem decStrList_enc (l : List String) (r : List Nat) :
    decStrList (encStrList l ++ r) = some (l, r) := by
  show decStrList (l.length :: ((l.map encStr).flatten ++ r)) = some (l, r)
  simp [decStrList, decMany_enc decStr_enc]

/-- Commit record round trip. -/
theorem decCommit_enc (c : Commit) (r : List Nat) :
    decCommit (encCommit c ++ r) = some (c, r) := by
  obtain ⟨cid, created, author, message, files⟩ := c
  have h : encCommit ⟨cid, created, author, message, files⟩ ++ r
      = encStr cid ++ (encOpt encDT created ++ (encOpt encStr author ++
        (encOpt encStr message ++ (encStrList files ++ r)))) := by
    simp [encCommit, List.append_assoc]
  rw [h]
  simp [decCommit, decStr_enc, decOpt_enc decDT_enc, decOpt_enc decStr_enc,
    decStrList_enc]

/-- Whole-store round trip: deserializing the serialized artifact yields the
original store, for stores of any size. -/
theorem deserialize_serialize (cs : List Commit) : deserialize (serialize cs) = some cs := by
  have hm := decMany_enc decCommit_enc cs []
  rw [List.append_nil] at hm
  show deserialize (cs.length :: (cs.map encCommit).flatten) = some cs
  simp [deserialize, hm]

/-- First-seen deduplication produces distinct keys. -/
theorem fsDedup_nodup {κ : Type} [DecidableEq κ] : ∀ l : List κ, (fsDedup l).Nodup := by
  intro l
  induction l with
  | nil => simp [fsDedup]
  | cons x xs ih =>
    rw [fsDedup, List.nodup_cons]
    refine ⟨?_, ih.filter _⟩
    intro hmem
    have := (List.mem_filter.mp hmem).2
    simp at this

/-- `Counter.update` with a key absent from the counter appends it. -/
theorem counterAdd_fresh {κ : Type} [DecidableEq κ] (cnt : List (κ × Nat)) (k : κ)
    (n : Nat) (h : ∀ p ∈ cnt, p.1 ≠ k) : counterAdd cnt k n = cnt ++ [(k, n)] := by
  unfold counterAdd
  rw [if_neg]
  simp only [List.any_eq_true, decide_eq_true_eq, not_exists, not_and]
  intro p hp
  exact h p hp

/-- Folding `Counter.update` over groups with pairwise-distinct keys appends
one `(key, size)` entry per group, in group order. -/
theorem do_count_foldl {κ : Type} [DecidableEq κ] :
    ∀ (grouped : List (κ × List Commit)) (cnt : List (κ × Nat)),
      (grouped.map (fun p => p.1)).Nodup →
      (∀ p ∈ cnt, ∀ q ∈ grouped, p.1 ≠ q.1) →
      grouped.foldl (fun cnt p => counterAdd cnt p.1 p.2.length) cnt
        = cnt ++ grouped.map (fun p => (p.1, p.2.length)) := by
  intro grouped
  induction grouped with
  | nil => intro cnt _ _; simp
  | cons g rest ih =>
    intro cnt hnd hfresh
    simp only [List.foldl_cons]
    rw [counterAdd_fresh cnt g.1 g.2.length
      (fun p hp => hfresh p hp g (List.mem_cons_self g rest))]
    rw [List.map_cons, List.nodup_cons] at hnd
    rw [ih (cnt ++ [(g.1, g.2.length)]) hnd.2 ?_]
    · simp
    · intro p hp q hq
      rcases List.mem_append.mp hp with hin | hone
      · exact hfresh p hin q (List.mem_cons_of_mem _ hq)
      · have hpg : p = (g.1, g.2.length) := by simpa using hone
        rw [hpg]
        intro hcontra
        exact hnd.1 (hcontra ▸ List.mem_map_of_mem (fun p => p.1) hq)

/-- `do_count` over a grouping with distinct keys is exactly the per-group
sizes, in group order. -/
theorem do_count_id {κ : Type} [DecidableEq κ] (grouped : List (κ × List Commit))
    (hnd : (grouped.map (fun p => p.1)).Nodup) :
    do_count grouped id = grouped.map (fun p => (p.1, p.2.length)) := by
  unfold do_count
  simp only [id]
  rw [do_count_foldl grouped [] hnd (by intro p hp; cases hp)]
  simp

/-- The weekly count values are, in first-seen week order, the number of
filtered commits in each distinct ISO week. -/
theorem weeklyCountValues_eq (commits : List Commit) (substring : String) (year : Nat) :
    weeklyCountValues commits substring year =
      (fsDedup ((iterate_over commits
          [whole_year year, only_authors (get_authors commits substring)]).map
        (fun c => isoWeekNum (cdate c)))).map
        (fun w => ((iterate_over commits
            [whole_year year, only_authors (get_authors commits substring)]).filter
          (fun c => decide (isoWeekNum (cdate c) = w))).length) := by
  unfold weeklyCountValues
  dsimp only
  rw [do_count_id]
  · simp [group_by_fn, List.map_map]
  · simp only [group_by_fn, List.map_map]
    have hcomp : ((fun p => p.1) ∘ fun k =>
        (k, (iterate_over commits
          [whole_year year, only_authors (get_authors commits substring)]).filter
            (fun c => decide (isoWeekNum (cdate c) = k)))) = fun k : Int => k := rfl
    rw [hcomp]
    simpa using fsDedup_nodup
      ((iterate_over commits
        [whole_year year, only_authors (get_authors commits substring)]).map
          (fun c => isoWeekNum (cdate c)))

/-- The values the source's query feeds to `mean` coincide with the claim-side
weekly counts. -/
theorem weeklyCounts_agree (commits : List Commit) (substring : String) (year : Nat) :
    weeklyCountValues commits substring year = specWeeklyCounts commits substring year := by
  have hio : iterate_over commits
      [whole_year year, only_authors (get_authors commits substring)]
      = commits.filter (fun c => only_authors (get_authors commits substring) c &&
          (dateLe ⟨year, 1, 1⟩ (cdate c) && dateLt (cdate c) ⟨year + 1, 1, 1⟩)) := by
    show (commits.filter (whole_year year)).filter
      (only_authors (get_authors commits substring)) = _
    rw [List.filter_filter]
    simp only [whole_year]
  rw [weeklyCountValues_eq, hio]
  rfl

/-- Timestamp at noon with a +01:00 offset, for the query fixtures. -/
def dtOf (y m d : Nat) : DateTime := ⟨y, m, d, 12, 0, 0, 60⟩

/-- A fully populated commit record, for the query fixtures. -/
def mkFix (id author : String) (y m d : Nat) : Commit :=
  { cid := id, created := some (dtOf y m d), author := some author,
    message := some "msg", files := ["a.py"] }

/-- Ten commits: "alice" has 5 in ISO week 1 of 2023 (Jan 2 to Jan 6) and 3 in
ISO week 2 (Jan 9 to Jan 11); the other two are in another year or by another
author. -/
def fixture10 : List Commit :=
  [mkFix "c01" "alice" 2023 1 2, mkFix "c02" "alice" 2023 1 3,
   mkFix "c03" "alice" 2023 1 4, mkFix "c04" "alice" 2023 1 5,
   mkFix "c05" "alice" 2023 1 6, mkFix "c06" "alice" 2023 1 9,
   mkFix "c07" "alice" 2023 1 10, mkFix "c08" "alice" 2023 1 11,
   mkFix "c09" "alice" 2022 5 4, mkFix "c10" "bob" 2023 1 12]

/-- Nine commits by "alice" in 2023: 5 in ISO week 1 and 4 in ISO week 2, so
the exact weekly mean is 9/2. -/
def fixture9 : List Commit :=
  [mkFix "d01" "alice" 2023 1 2, mkFix "d02" "alice" 2023 1 3,
   mkFix "d03" "alice" 2023 1 4, mkFix "d04" "alice" 2023 1 5,
   mkFix "d05" "alice" 2023 1 6, mkFix "d06" "alice" 2023 1 9,
   mkFix "d07" "alice" 2023 1 10, mkFix "d08" "alice" 2023 1 11,
   mkFix "d09" "alice" 2023 1 12]

/-- C6 (amended): the weekly-mean query restricts to commits whose author
matches the substring within the year window, groups by ISO week number and
counts per week, but reports `int(mean(...))` — the arithmetic mean of the
weekly counts truncated toward zero, not the exact mean; on the 10-commit
fixture the reported value is 4 (the exact mean 4.0 truncates to 4). -/
theorem weekly_mean_is_truncated_mean :
    (∀ (commits : List Commit) (substring : String) (year : Nat),
      get_average_count_by_author_in_year commits substring year =
        match weeklyMeanExact commits substring year with
        | none => .error .statisticsError
        | some q => .ok (pyInt q)) ∧
    get_average_count_by_author_in_year fixture10 "alice" 2023 = .ok 4 ∧
    weeklyMeanExact fixture10 "alice" 2023 = some 4 := by
  have hmain : ∀ (commits : List Commit) (substring : String) (year : Nat),
      get_average_count_by_author_in_year commits substring year =
        match weeklyMeanExact commits substring year with
        | none => .error .statisticsError
        | some q => .ok (pyInt q) := by
    intro commits substring year
    unfold get_average_count_by_author_in_year weeklyMeanExact
    dsimp only
    rw [weeklyCounts_agree]
    cases h : (specWeeklyCounts commits substring year).isEmpty
    · simp [h]
    · simp [h]
  have h10 : specWeeklyCounts fixture10 "alice" 2023 = [5, 3] := by decide
  have hex : weeklyMeanExact fixture10 "alice" 2023 = some 4 := by
    unfold weeklyMeanExact
    rw [h10]
    norm_num
  refine ⟨hmain, ?_, hex⟩
  rw [hmain fixture10 "alice" 2023, hex]
  have hp : pyInt 4 = 4 := by
    simp only [pyInt]
    norm_num
  show Except.ok (pyInt 4) = Except.ok 4
  rw [hp]

/-- C6 counterexample: on nine "alice" commits whose weekly counts are 5 and 4
the exact arithmetic mean is 9/2, but the code reports `int(mean(...))` = 4,
so the query does not return the exact arithmetic mean of the weekly counts. -/
theorem weekly_mean_not_exact_mean :
    get_average_count_by_author_in_year fixture9 "alice" 2023 = .ok 4 ∧
    weeklyMeanExact fixture9 "alice" 2023 = some (9 / 2 : ℚ) ∧
    ((4 : ℚ) ≠ (9 / 2 : ℚ)) := by
  have h9 : specWeeklyCounts fixture9 "alice" 2023 = [5, 4] := by decide
  have hex : weeklyMeanExact fixture9 "alice" 2023 = some (9 / 2) := by
    unfold weeklyMeanExact
    rw [h9]
    norm_num
  refine ⟨?_, hex, by norm_num⟩
  unfold get_average_count_by_author_in_year
  dsimp only
  rw [weeklyCounts_agree, h9]
  have hp : pyInt ((9 : ℚ) / 2) = 4 := by
    simp only [pyInt]
    norm_num
    decide
  have hsum : (([5, 4] : List Nat).map (fun n => (n : ℚ))).sum / (([5, 4] : List Nat).length : ℚ)
      = (9 : ℚ) / 2 := by norm_num
  show Except.ok (pyInt ((([5, 4] : List Nat).map (fun n => (n : ℚ))).sum
    / (([5, 4] : List Nat).length : ℚ))) = Except.ok 4
  rw [hsum, hp]

/-- C5 (amended): when no commits match the author-and-year restriction, the
weekly-mean query does not return a defined empty result: `statistics.mean` is
applied to an empty sequence and raises `StatisticsError`, which propagates
uncaught out of the query (modelled as the error outcome). -/
theorem empty_match_raises_statistics_error (commits : List Commit)
    (substring : String) (year : Nat)
    (h : iterate_over commits
      [whole_year year, only_authors (get_authors commits substring)] = []) :
    get_average_count_by_author_in_year commits substring year
      = .error .statisticsError := by
  have hv : weeklyCountValues commits substring year = [] := by
    unfold weeklyCountValues
    dsimp only
    rw [h]
    rfl
  unfold get_average_count_by_author_in_year
  dsimp only
  rw [hv]
  rfl

/-- C5 witness: a store with one "bob" commit of 2022 has no commit matching
author substring "alice" in 2023, and the query errors. -/
theorem empty_match_raises_statistics_error_witness :
    iterate_over [mkFix "x" "bob" 2022 3 3]
      [whole_year 2023, only_authors (get_authors [mkFix "x" "bob" 2022 3 3] "alice")]
      = [] ∧
    get_average_count_by_author_in_year [mkFix "x" "bob" 2022 3 3] "alice" 2023
      = .error .statisticsError :=
  ⟨by decide,
   empty_match_raises_statistics_error [mkFix "x" "bob" 2022 3 3] "alice" 2023 (by decide)⟩

/-- C5 counterexample: on a concrete store where no commit matches, the query
does not return a defined empty/undefined result — the uncaught
`StatisticsError` of `mean([])` escapes (the error outcome), i.e. the program
crashes on this input. -/
theorem weekly_mean_crashes_on_empty :
    get_average_count_by_author_in_year [mkFix "y" "carol" 2021 7 7] "alice" 2023
      = .error .statisticsError := by decide

/-- C4 (amended): with `force` set and an artifact present, the artifact is
deleted first and the call proceeds exactly as a cache-miss build; with
`force` set and no artifact present, `os.remove` raises `FileNotFoundError`
and the call fails instead of proceeding. -/
theorem force_removal_semantics :
    (∀ (env : GitEnv) (bytes : List Nat),
      get_or_create_commits env true (some bytes)
        = get_or_create_commits env false none) ∧
    (∀ env : GitEnv, get_or_create_commits env true none = .error .fileNotFound) :=
  ⟨fun _ _ => rfl, fun _ => rfl⟩

/-- Trivial environment: every command yields empty decodable output with exit
status 0, every date line parses. -/
def envTriv : GitEnv :=
  { idsProc := ⟨0, some ""⟩, filesProc := fun _ => ⟨0, some ""⟩,
    authorProc := fun _ => ⟨0, some ""⟩, dateProc := fun _ => ⟨0, some ""⟩,
    msgProc := fun _ => ⟨0, some ""⟩, parse := fun _ => some default }

/-- C4 counterexample: with `force` set and no artifact at the fixed path, the
call errors (`os.remove` raises `FileNotFoundError`) instead of proceeding —
a missing artifact IS an error in this path. -/
theorem force_without_artifact_errors :
    get_or_create_commits envTriv true none = .error .fileNotFound := rfl

/-- Success test for an `Except` outcome. -/
def exceptOk {ε α : Type} : Except ε α → Bool
  | .ok _ => true
  | .error _ => false

/-- C3 (amended): `run_cmd` never inspects the exit status — two invocations
with the same stdout behave identically whatever their exit codes, and a call
fails exactly when its output cannot be decoded; a decode failure in the
enumeration aborts the build.  No `ProcessFailure` identifying command and
exit status exists anywhere. -/
theorem run_cmd_exit_status_ignored :
    (∀ p q : ProcOut, p.stdout = q.stdout → runCmdLines p = runCmdLines q) ∧
    (∀ p : ProcOut, exceptOk (runCmdLines p) = p.stdout.isSome) ∧
    (∀ env : GitEnv, env.idsProc.stdout = none →
      buildCommits env = .error .decodeError) := by
  refine ⟨?_, ?_, ?_⟩
  · intro p q h
    unfold runCmdLines
    rw [h]
  · intro p
    cases hp : p.stdout <;> simp [runCmdLines, hp, exceptOk]
  · intro env h
    have hr : runCmdLines env.idsProc = .error .decodeError := by
      unfold runCmdLines
      rw [h]
    unfold buildCommits
    rw [hr]

/-- Environment whose enumeration output is undecodable. -/
def envNoDecode : GitEnv :=
  { idsProc := ⟨0, none⟩, filesProc := fun _ => ⟨0, some ""⟩,
    authorProc := fun _ => ⟨0, some ""⟩, dateProc := fun _ => ⟨0, some ""⟩,
    msgProc := fun _ => ⟨0, some ""⟩, parse := fun _ => some default }

/-- C3 witness: same stdout with different exit codes gives identical results,
and an undecodable enumeration aborts the build. -/
theorem run_cmd_exit_status_ignored_witness :
    runCmdLines ⟨7, some "x"⟩ = runCmdLines ⟨0, some "x"⟩ ∧
    buildCommits envNoDecode = .error .decodeError :=
  ⟨run_cmd_exit_status_ignored.1 ⟨7, some "x"⟩ ⟨0, some "x"⟩ rfl,
   run_cmd_exit_status_ignored.2.2 envNoDecode rfl⟩

/-- C3 counterexample: an invocation whose external command exits with status 1
but produces decodable output returns an ordinary result — no error of any
kind is surfaced, contradicting the claim that a non-zero exit surfaces a
`ProcessFailure` identifying the command and exit status. -/
theorem run_cmd_nonzero_exit_no_error :
    runCmdLines ⟨1, some "x"⟩ = .ok ["x"] ∧
    exceptOk (runCmdLines ⟨1, some "x"⟩) = true :=
  ⟨rfl, rfl⟩

/-- C7: deserializing the serialized binary artifact yields a store equal to
the original in every field of every Commit, for stores of any size (0, 1, N). -/
theorem serialize_deserialize_round_trip :
    ∀ store : List Commit, deserialize (serialize store) = some store :=
  deserialize_serialize

/-- C1: a fan-out phase executed under the parallel pool model — workers
completing in an arbitrary order (any permutation of the submission indices),
each result scattered into its submission-index slot and gathered in
submission order — assigns result `i` to commit `i` and is observationally
equal to the sequential execution of the same phase. -/
theorem parallel_phase_matches_sequential {β : Type} (f : Commit → β)
    (set : β → Commit → Commit) (commits : List Commit) (order : List Nat)
    (h : order.Perm (List.range commits.length)) :
    phaseSched f set commits order = some (phaseSeq f set commits) := by
  have hs : ∀ j, j < commits.length →
      schedSlots f commits order j = (commits.get? j).map f := by
    intro j hj
    exact schedFoldl_mem f commits order _ j (h.mem_iff.mpr (List.mem_range.mpr hj))
  unfold phaseSched poolMapSched
  rw [gatherN_filled f commits _ hs commits.length le_rfl]
  simp [poolMap, phaseSeq]

/-- Three distinct commits for the scheduling witness. -/
def cA : Commit := mkFix "a" "u" 2023 1 2

/-- Second commit for the scheduling witness. -/
def cB : Commit := mkFix "b" "v" 2023 1 3

/-- Third commit for the scheduling witness. -/
def cC : Commit := mkFix "c" "w" 2023 1 4

/-- C1 witness: with three commits and workers completing in order 2, 0, 1 the
parallel phase equals the sequential phase. -/
theorem parallel_phase_matches_sequential_witness :
    ([2, 0, 1] : List Nat).Perm (List.range ([cA, cB, cC] : List Commit).length) ∧
    phaseSched (fun c => c.cid) setAuthor [cA, cB, cC] [2, 0, 1]
      = some (phaseSeq (fun c => c.cid) setAuthor [cA, cB, cC]) :=
  ⟨by decide, parallel_phase_matches_sequential _ _ _ _ (by decide)⟩

/-- C8: if the ingestion build succeeds, the first cache-aware call (no
artifact, no force) runs ingestion and persists the serialized store; a second
call (artifact present, no force) returns the identical store by
deserialization, without running ingestion (the `Bool` component is `false`). -/
theorem cache_build_idempotent (env : GitEnv) (store : List Commit)
    (h : buildCommits env = .ok store) :
    get_or_create_commits env false none
      = .ok (store, some (serialize store), true) ∧
    get_or_create_commits env false (some (serialize store))
      = .ok (store, some (serialize store), false) := by
  constructor
  · show buildBranch env = _
    unfold buildBranch
    rw [h]
  · show (match deserialize (serialize store) with
      | none => Except.error CacheError.cacheCorruption
      | some commits =>
        Except.ok (commits, some (serialize store), false)) = _
    rw [deserialize_serialize]

/-- One-commit environment whose build succeeds. -/
def envW1 : GitEnv :=
  { idsProc := ⟨0, some "\"a1\"\n"⟩,
    filesProc := fun _ => ⟨0, some "f.py\ng.py"⟩,
    authorProc := fun _ => ⟨0, some "\"al@x.com\""⟩,
    dateProc := fun _ => ⟨0, some "\"2023-01-02 10:00:00 +0100\""⟩,
    msgProc := fun _ => ⟨0, some "hello"⟩,
    parse := fun s =>
      if s = "2023-01-02 10:00:00 +0100" then some (dtOf 2023 1 2) else none }

/-- The store `envW1` builds. -/
def storeW1 : List Commit :=
  [{ cid := "a1", created := some (dtOf 2023 1 2), author := some "al@x.com",
     message := some "hello", files := ["f.py", "g.py"] }]

/-- C8 witness: on the one-commit environment the first call builds and
persists, the second call returns the identical store without ingestion. -/
theorem cache_build_idempotent_witness :
    buildCommits envW1 = .ok storeW1 ∧
    get_or_create_commits envW1 false none
      = .ok (storeW1, some (serialize storeW1), true) ∧
    get_or_create_commits envW1 false (some (serialize storeW1))
      = .ok (storeW1, some (serialize storeW1), false) := by
  have hb : buildCommits envW1 = .ok storeW1 := by decide
  obtain ⟨h1, h2⟩ := cache_build_idempotent envW1 storeW1 hb
  exact ⟨hb, h1, h2⟩

/-- C2 (amended): after a successful cache-miss build, provided every
enumeration output line is non-empty after quote-stripping, the store contains
exactly one Commit per enumerated id, in enumeration order, each with a
non-empty id and with `created`, `author`, `message` populated and `files`
holding the changed-files task result.  (Without the proviso the property
fails: empty enumeration output manufactures one Commit with an empty id —
see the counterexample.) -/
theorem build_store_invariant (env : GitEnv) (idLines : List String)
    (store : List Commit)
    (hids : runCmdLines env.idsProc = .ok idLines)
    (hne : ∀ l ∈ idLines, chompQuotes l ≠ "")
    (hb : buildCommits env = .ok store) :
    store.map (fun c => c.cid) = idLines.map chompQuotes ∧
    ∀ c ∈ store, c.cid ≠ "" ∧ c.created.isSome ∧ c.author.isSome ∧
      c.message.isSome ∧
      ∃ fl, filesPhaseOne env c.cid = .ok fl ∧ c.files = fl := by
  obtain ⟨idLines', hids', hlen, hpt⟩ := build_ok_fields hb
  rw [hids] at hids'
  injection hids' with heq
  subst heq
  constructor
  · apply List.ext_get (by simp [hlen])
    intro i h1 h2
    have hi : i < store.length := by simpa using h1
    have hi' : i < idLines.length := by simpa using h2
    obtain ⟨fl, a, d, m, _, _, _, _, hstore⟩ := hpt i hi hi'
    rw [List.get_eq_getElem] at hstore
    simp only [List.get_eq_getElem, List.getElem_map]
    rw [hstore]
    simp [List.get_eq_getElem]
  · intro c hc
    obtain ⟨⟨i, hi⟩, hci⟩ := List.mem_iff_get.mp hc
    have hi' : i < idLines.length := by omega
    obtain ⟨fl, a, d, m, hfl, _, _, _, hstore⟩ := hpt i hi hi'
    subst hci
    rw [hstore]
    refine ⟨?_, by simp, by simp, by simp, fl, ?_, rfl⟩
    · exact hne (idLines.get ⟨i, hi'⟩) (List.get_mem idLines i hi')
    · exact hfl

/-- C2 witness: the one-commit environment enumerates the line `"a1"`, whose
quote-stripped id is non-empty, and the built store satisfies the invariant. -/
theorem build_store_invariant_witness :
    runCmdLines envW1.idsProc = .ok ["\"a1\""] ∧
    (∀ l ∈ (["\"a1\""] : List String), chompQuotes l ≠ "") ∧
    buildCommits envW1 = .ok storeW1 ∧
    (storeW1.map (fun c => c.cid) = (["\"a1\""] : List String).map chompQuotes ∧
     ∀ c ∈ storeW1, c.cid ≠ "" ∧ c.created.isSome ∧ c.author.isSome ∧
       c.message.isSome ∧
       ∃ fl, filesPhaseOne envW1 c.cid = .ok fl ∧ c.files = fl) :=
  ⟨by decide, by decide, by decide,
   build_store_invariant envW1 ["\"a1\""] storeW1 (by decide) (by decide) (by decide)⟩

/-- Environment with empty enumeration output (as a repository whose history
holds only merge commits produces), every other command also yielding empty
output, every date line parsing. -/
def envC2 : GitEnv :=
  { idsProc := ⟨0, some ""⟩, filesProc := fun _ => ⟨0, some ""⟩,
    authorProc := fun _ => ⟨0, some ""⟩, dateProc := fun _ => ⟨0, some ""⟩,
    msgProc := fun _ => ⟨0, some ""⟩, parse := fun _ => some (dtOf 2023 1 2) }

/-- C2 counterexample: with empty enumeration output the build still succeeds
(`"".split("\n")` is `[""]`), and the resulting store holds one Commit whose
id is the empty string — a successful build does not guarantee non-empty ids. -/
theorem build_empty_enumeration_gives_empty_id :
    buildCommits envC2 = .ok
      [{ cid := "", created := some (dtOf 2023 1 2), author := some "",
         message := some "", files := [""] }] ∧
    ([{ cid := "", created := some (dtOf 2023 1 2), author := some "",
        message := some "", files := [""] }] : List Commit).map (fun c => c.cid)
      = [""] :=
  ⟨by decide, by decide⟩

/-- C9 (amended): a commit whose changed-files command produces empty output is
stored with `files = [""]` — a single empty string, since splitting empty
output yields one empty line — not the empty list; the commit remains in the
store, and the file-extension filter evaluates to `false` on it for every
extension without crashing. -/
theorem empty_files_output_singleton (env : GitEnv) (store : List Commit)
    (c : Commit) (hb : buildCommits env = .ok store) (hc : c ∈ store)
    (hout : (env.filesProc c.cid).stdout = some "") :
    c.files = [""] ∧ c ∈ store ∧
    ∀ ext : String, editedSpecificExtension ext c = false := by
  obtain ⟨idLines, hids, hlen, hpt⟩ := build_ok_fields hb
  obtain ⟨⟨i, hi⟩, hci⟩ := List.mem_iff_get.mp hc
  have hi' : i < idLines.length := by omega
  obtain ⟨fl, a, d, m, hfl, _, _, _, hstore⟩ := hpt i hi hi'
  subst hci
  rw [hstore] at hout ⊢
  have hemp : filesPhaseOne env (chompQuotes (idLines.get ⟨i, hi'⟩)) = .ok [""] := by
    unfold filesPhaseOne runCmdLines
    rw [show (env.filesProc (chompQuotes (idLines.get ⟨i, hi'⟩))).stdout = some ""
      from hout]
    rfl
  rw [hemp] at hfl
  injection hfl with hfleq
  have hfiles : fl = [""] := hfleq.symm
  subst hfiles
  refine ⟨rfl, by rw [← hstore]; exact List.get_mem store i hi, ?_⟩
  intro ext
  simp only [editedSpecificExtension, List.any_cons, List.any_nil, Bool.or_false]
  have hbn : basename "" = "" := rfl
  rw [hbn]
  simp only [strEndsWith]
  apply decide_eq_false
  intro hsuf
  rw [List.suffix_nil] at hsuf
  rw [String.data_append] at hsuf
  simp at hsuf

/-- One-commit environment whose changed-files command produces empty output. -/
def envW9 : GitEnv :=
  { idsProc := ⟨0, some "\"a1\"\n"⟩,
    filesProc := fun _ => ⟨0, some ""⟩,
    authorProc := fun _ => ⟨0, some "\"al@x.com\""⟩,
    dateProc := fun _ => ⟨0, some "\"2023-01-02 10:00:00 +0100\""⟩,
    msgProc := fun _ => ⟨0, some "hello"⟩,
    parse := fun s =>
      if s = "2023-01-02 10:00:00 +0100" then some (dtOf 2023 1 2) else none }

/-- The commit `envW9` builds: `files` is `[""]`. -/
def cW9 : Commit :=
  { cid := "a1", created := some (dtOf 2023 1 2), author := some "al@x.com",
    message := some "hello", files := [""] }

/-- C9 witness: on the one-commit environment with empty changed-files output
the stored commit has `files = [""]`, stays in the store, and matches no
extension filter. -/
theorem empty_files_output_singleton_witness :
    buildCommits envW9 = .ok [cW9] ∧ cW9 ∈ [cW9] ∧
    (envW9.filesProc cW9.cid).stdout = some "" ∧
    (cW9.files = [""] ∧ cW9 ∈ [cW9] ∧
     ∀ ext : String, editedSpecificExtension ext cW9 = false) :=
  ⟨by decide, by decide, rfl,
   empty_files_output_singleton envW9 [cW9] cW9 (by decide) (by decide) rfl⟩

/-- C9 counterexample: the commit built from empty changed-files output is
stored with `files = [""]`, not with the empty sequence `[]` the claim
states. -/
theorem empty_files_output_not_nil :
    buildCommits envW9 = .ok [cW9] ∧
    ([cW9] : List Commit).map (fun c => c.files) = [[""]] ∧
    ([""] : List String) ≠ ([] : List String) :=
  ⟨by decide, by decide, by decide⟩

/-- C10: the stored message of every commit of a successful build is obtained
from the message command's output by stripping all leading and trailing
double-quote characters from each output line, joining the lines with
newlines, and trimming surrounding whitespace — quote characters at line edges
are removed, not stored verbatim. -/
theorem message_lines_quote_stripped (env : GitEnv) (store : List Commit)
    (c : Commit) (s : String) (hb : buildCommits env = .ok store) (hc : c ∈ store)
    (hout : (env.msgProc c.cid).stdout = some s) :
    c.message = some (pyStrip (joinNl ((splitLines s).map chompQuotes))) := by
  obtain ⟨idLines, hids, hlen, hpt⟩ := build_ok_fields hb
  obtain ⟨⟨i, hi⟩, hci⟩ := List.mem_iff_get.mp hc
  have hi' : i < idLines.length := by omega
  obtain ⟨fl, a, d, m, _, _, _, hm, hstore⟩ := hpt i hi hi'
  subst hci
  rw [hstore] at hout ⊢
  have hms : msgPhaseOne env (chompQuotes (idLines.get ⟨i, hi'⟩))
      = .ok ((splitLines s).map chompQuotes) := by
    unfold msgPhaseOne runCmdLines
    rw [show (env.msgProc (chompQuotes (idLines.get ⟨i, hi'⟩))).stdout = some s
      from hout]
  rw [hms] at hm
  injection hm with hmeq
  rw [← hmeq]

/-- One-commit environment whose message output has quote characters at the
edges of both lines. -/
def envW10 : GitEnv :=
  { idsProc := ⟨0, some "\"a1\"\n"⟩,
    filesProc := fun _ => ⟨0, some "f.py"⟩,
    authorProc := fun _ => ⟨0, some "\"al@x.com\""⟩,
    dateProc := fun _ => ⟨0, some "\"2023-01-02 10:00:00 +0100\""⟩,
    msgProc := fun _ => ⟨0, some "\"hello\"\n\"world\""⟩,
    parse := fun s =>
      if s = "2023-01-02 10:00:00 +0100" then some (dtOf 2023 1 2) else none }

/-- The commit `envW10` builds: the quote characters of the message lines are
gone. -/
def cW10 : Commit :=
  { cid := "a1", created := some (dtOf 2023 1 2), author := some "al@x.com",
    message := some "hello\nworld", files := ["f.py"] }

/-- C10 witness: a message whose two lines are wrapped in double quotes is
stored as the quote-free joined text, not verbatim. -/
theorem message_lines_quote_stripped_witness :
    buildCommits envW10 = .ok [cW10] ∧
    cW10.message
      = some (pyStrip (joinNl
          ((splitLines "\"hello\"\n\"world\"").map chompQuotes))) ∧
    cW10.message = some "hello\nworld" ∧
    some "hello\nworld" ≠ some "\"hello\"\n\"world\"" :=
  ⟨by decide,
   message_lines_quote_stripped envW10 [cW10] cW10 "\"hello\"\n\"world\""
     (by decide) (by decide) rfl,
   by decide, by decide⟩
